import Mathlib

/-!
Shallow embedding of the `plasma-cash-tokens` Rust crate.

* `Merkle.get_root` embeds `src/merkle.rs::get_root`.
* `Plasma.TxnCmp`, `Plasma.PlasmaCashTxn` embed `src/transaction.rs`.
* `Plasma.Token`, `Plasma.Token.new`, `Plasma.Token.add_transaction`,
  `Plasma.Token.is_valid`, `Plasma.is_history_valid` embed `src/token.rs`.
* `Legacy.is_history_valid` embeds the older validator in `src/lib.rs`.

Byte strings are modelled as `List Nat`; a hash type `α` with Rust bound
`AsRef<[u8]>` is modelled by an explicit view function `asRef : α → List Nat`.
Bit keys (`bitvec::BitSlice` / `BitVec`) are modelled as `List Bool` in
iteration order (index 0 first).
-/

namespace Merkle

/-- One step of the loop body of `get_root` (`src/merkle.rs` lines 33-44):
given the accumulator `node_hash` and the pair `(is_right, sibling_node)`,
concatenate sibling-then-accumulator when the bit is set, otherwise
accumulator-then-sibling, and hash the result. -/
def step {α : Type} (asRef : α → List Nat) (hash_fn : List Nat → α)
    (node_hash : α) (p : Bool × α) : α :=
  if p.1 then hash_fn (asRef p.2 ++ asRef node_hash)
  else hash_fn (asRef node_hash ++ asRef p.2)

/-- Embedding of `src/merkle.rs::get_root`: validate that the key has as many
bits as the proof has entries, then fold the loop body over the reversed key
bits zipped with the reversed proof entries, starting from the leaf hash. -/
def get_root {α : Type} (asRef : α → List Nat) (key : List Bool)
    (leaf_hash : α) (proof : List α) (hash_fn : List Nat → α) :
    Except String α :=
  if key.length ≠ proof.length then
    .error "Key must be the same size as the proof!"
  else
    .ok ((key.reverse.zip proof.reverse).foldl (step asRef hash_fn) leaf_hash)

end Merkle

namespace Plasma

/-- Embedding of `src/transaction.rs::TxnCmp`. -/
inductive TxnCmp : Type
  /-- LHS and RHS are the same exact transaction. -/
  | Same
  /-- LHS is the parent of RHS. -/
  | Parent
  /-- RHS is the parent of LHS. -/
  | Child
  /-- LHS and RHS have same parent, but LHS is earlier. -/
  | EarlierSibling
  /-- LHS and RHS have same parent, but RHS is earlier. -/
  | LaterSibling
  /-- LHS and RHS are the same txn to two different receivers. -/
  | DoubleSpend
  /-- LHS and RHS have no relationship to each other. -/
  | Unrelated
  deriving DecidableEq, Repr

/-- Embedding of the trait `src/transaction.rs::PlasmaCashTxn` as a record of
its methods: the trait is generic over the transaction type `T` and the hash
type `Hash` (with `AsRef<[u8]>` modelled by `asRef`). -/
structure PlasmaCashTxn (T : Type) (Hash : Type) where
  token_id : T → List Bool
  valid : T → Bool
  leaf_hash : T → Hash
  empty_leaf_hash : Hash
  hash_fn : List Nat → Hash
  asRef : Hash → List Nat
  compare : T → T → TxnCmp

/-- Embedding of `src/token.rs::TokenStatus`. -/
inductive TokenStatus : Type
  | RootChain
  | Deposit
  | PlasmaChain
  | Withdrawal
  deriving DecidableEq, Repr

/-- Embedding of the struct `src/token.rs::Token`. -/
structure Token (T : Type) (Hash : Type) where
  uid : List Bool
  status : TokenStatus
  history : List T
  proofs : List (List Hash)
  deriving DecidableEq

/-- Embedding of `src/token.rs::Token::new`. -/
def Token.new {T Hash : Type} (uid : List Bool) : Token T Hash :=
  { uid := uid
    status := TokenStatus.RootChain
    history := []
    proofs := [] }

/-- The adjacent-pair loop of `src/token.rs::is_history_valid` (lines 99-107):
walk the history with a peekable iterator and require each pair of consecutive
entries `(prev_txn, txn)` to satisfy `txn.compare(prev_txn) == Child`. -/
def chainChild {T : Type} (compare : T → T → TxnCmp) : List T → Bool
  | [] => true
  | [_] => true
  | prev_txn :: txn :: rest =>
    match compare txn prev_txn with
    | TxnCmp.Child => chainChild compare (txn :: rest)
    | _ => false

/-- Embedding of `src/token.rs::is_history_valid`: empty histories are valid;
otherwise every entry must be individually `valid()` and each entry must be
the `Child` of its predecessor. -/
def is_history_valid {T Hash : Type} (inst : PlasmaCashTxn T Hash)
    (history : List T) : Bool :=
  if history.isEmpty then true
  else if ¬ history.all inst.valid then false
  else chainChild inst.compare history

/-- Embedding of `src/token.rs::Token::is_valid`. -/
def Token.is_valid {T Hash : Type} (inst : PlasmaCashTxn T Hash)
    (t : Token T Hash) : Bool :=
  is_history_valid inst t.history

/-- Embedding of `src/token.rs::Token::add_transaction`: when the history has
a last element whose comparison with the candidate is not `Child`, fail and
leave the token unchanged; otherwise push the candidate. The Rust method
mutates `self` and returns `Result<(), &str>`; we model it as returning the
updated token on success. -/
def Token.add_transaction {T Hash : Type} (inst : PlasmaCashTxn T Hash)
    (t : Token T Hash) (txn : T) : Except String (Token T Hash) :=
  match t.history.getLast? with
  | some last_txn =>
    if inst.compare txn last_txn ≠ TxnCmp.Child then
      .error "Transaction is not a child of previous transaction."
    else
      .ok { t with history := t.history ++ [txn] }
  | none => .ok { t with history := t.history ++ [txn] }

end Plasma

namespace Legacy

/-- The adjacent-pair loop of the older validator `src/lib.rs::is_history_valid`
(lines 40-48): each pair of consecutive entries `(prev_txn, txn)` must satisfy
`prev_txn.compare(txn) == Parent`. -/
def chainParent {T : Type} (compare : T → T → Plasma.TxnCmp) : List T → Bool
  | [] => true
  | [_] => true
  | prev_txn :: txn :: rest =>
    match compare prev_txn txn with
    | Plasma.TxnCmp.Parent => chainParent compare (txn :: rest)
    | _ => false

/-- Embedding of the older validator `src/lib.rs::is_history_valid`: empty
histories are valid; otherwise each entry must be the `Parent` of its
successor. (This revision performs no per-entry `valid()` check; its trait
has no such method.) -/
def is_history_valid {T : Type} (compare : T → T → Plasma.TxnCmp)
    (history : List T) : Bool :=
  if history.length = 0 then true
  else chainParent compare history

end Legacy

namespace Test

/-- A small concrete transaction type exercising the embedding: transaction
`n` is the child of transaction `n - 1`. Transaction `7` is ill-formed
(`valid` is false) and carries a token id different from the others. -/
def instTest : Plasma.PlasmaCashTxn (Fin 8) (List Nat) where
  token_id a := if a.val = 7 then [false] else [true]
  valid a := a.val != 7
  leaf_hash a := [a.val]
  empty_leaf_hash := []
  hash_fn l := 0 :: l
  asRef l := l
  compare a b :=
    if a = b then .Same
    else if a.val = b.val + 1 then .Child
    else if b.val = a.val + 1 then .Parent
    else .Unrelated

end Test

/-- C1: `get_root` starts the accumulator at the leaf commitment and folds
from leaf level to root level over the key bits paired with the witness
entries taken in reverse: peeling the last key bit together with the last
witness entry combines it into the accumulator first (sibling ‖ accumulator
when the bit designates the right child, accumulator ‖ sibling otherwise);
in particular for the 3-bit key `0b101` with witness `[S2, S1, S0]` the leaf
commitment `H0` is combined with `S0` first, then `S1`, then `S2`. -/
theorem get_root_leaf_to_root_fold {α : Type} (asRef : α → List Nat)
    (hash_fn : List Nat → α) :
    (∀ (ks : List Bool) (b : Bool) (leaf s : α) (ws : List α),
      Merkle.get_root asRef (ks ++ [b]) leaf (ws ++ [s]) hash_fn =
        Merkle.get_root asRef ks
          (if b then hash_fn (asRef s ++ asRef leaf)
           else hash_fn (asRef leaf ++ asRef s)) ws hash_fn) ∧
    (∀ leaf : α, Merkle.get_root asRef [] leaf [] hash_fn = .ok leaf) ∧
    (∀ (H0 S2 S1 S0 : α),
      Merkle.get_root asRef [true, false, true] H0 [S2, S1, S0] hash_fn =
        .ok (hash_fn (asRef S2 ++
          asRef (hash_fn
            (asRef (hash_fn (asRef S0 ++ asRef H0)) ++ asRef S1))))) := by
  refine ⟨?_, fun _ => rfl, ?_⟩
  · intro ks b leaf s ws
    simp only [Merkle.get_root, List.length_append, List.length_singleton,
      List.reverse_append, List.reverse_singleton, List.singleton_append,
      List.zip_cons_cons, List.foldl_cons, Merkle.step]
    rcases b with _ | _ <;> simp
  · intro H0 S2 S1 S0
    rfl

/-- C4: `get_root` returns the length-mismatch error exactly when the witness
length differs from the key bit length, and otherwise returns some
successfully computed root; it is a total function (never panics) and
consumes both inputs whole. -/
theorem get_root_length_mismatch_iff {α : Type} (asRef : α → List Nat)
    (key : List Bool) (leaf : α) (proof : List α)
    (hash_fn : List Nat → α) :
    (Merkle.get_root asRef key leaf proof hash_fn =
        .error "Key must be the same size as the proof!" ↔
      key.length ≠ proof.length) ∧
    ((∃ r, Merkle.get_root asRef key leaf proof hash_fn = .ok r) ↔
      key.length = proof.length) := by
  unfold Merkle.get_root
  by_cases h : key.length = proof.length
  · simp [h]
  · simp [h]

/-- Witness for C4 at concrete inputs: a 1-bit key with an empty witness is
rejected with the length-mismatch error, and a 1-bit key with a 1-entry
witness yields a root. -/
theorem get_root_length_mismatch_iff_witness :
    Merkle.get_root (fun l => l) [true] [7] [] (fun l => 0 :: l) =
        .error "Key must be the same size as the proof!" ∧
    ∃ r, Merkle.get_root (fun l => l) [true] [7] [[5]] (fun l => 0 :: l) =
        .ok r := by
  refine ⟨?_, ?_⟩
  · exact (get_root_length_mismatch_iff (fun l => l) [true] [7] []
      (fun l => 0 :: l)).1.mpr (by decide)
  · exact (get_root_length_mismatch_iff (fun l => l) [true] [7] [[5]]
      (fun l => 0 :: l)).2.mpr (by decide)

/-- C8: for the zero-length key and the empty witness, `get_root` succeeds
and returns the leaf commitment unchanged, for every hash function; the
result does not depend on the hash function at all (no hash invocation). -/
theorem get_root_zero_depth_key {α : Type} (asRef : α → List Nat) (leaf : α) :
    (∀ hash_fn : List Nat → α,
      Merkle.get_root asRef [] leaf [] hash_fn = .ok leaf) ∧
    (∀ f g : List Nat → α,
      Merkle.get_root asRef [] leaf [] f =
        Merkle.get_root asRef [] leaf [] g) := by
  exact ⟨fun _ => rfl, fun _ _ => rfl⟩

/-- The adjacent-pair loop of the current validator succeeds exactly when the
history is a chain under "next is the Child of prev". -/
theorem chainChild_iff_chain {T : Type} (cmp : T → T → Plasma.TxnCmp) :
    ∀ l : List T, Plasma.chainChild cmp l = true ↔
      List.Chain' (fun prev next => cmp next prev = Plasma.TxnCmp.Child) l
  | [] => by simp [Plasma.chainChild]
  | [x] => by simp [Plasma.chainChild]
  | a :: b :: rest => by
    rw [List.chain'_cons]
    cases h : cmp b a <;>
      simp [Plasma.chainChild, h, chainChild_iff_chain cmp (b :: rest)]

/-- C2: `is_history_valid` returns true iff the sequence is empty, or every
entry is individually valid and every adjacent pair `(prev, next)` satisfies
`compare(next, prev) == Child`. -/
theorem is_history_valid_iff {T Hash : Type}
    (inst : Plasma.PlasmaCashTxn T Hash) (history : List T) :
    Plasma.is_history_valid inst history = true ↔
      (history = [] ∨
        ((∀ t ∈ history, inst.valid t = true) ∧
          List.Chain'
            (fun prev next => inst.compare next prev = Plasma.TxnCmp.Child)
            history)) := by
  unfold Plasma.is_history_valid
  rcases history with _ | ⟨x, rest⟩
  · simp
  · simp only [List.isEmpty_cons, Bool.false_eq_true, if_false]
    by_cases hall : (x :: rest).all inst.valid
    · rw [if_neg (not_not_intro hall)]
      rw [List.all_eq_true] at hall
      constructor
      · intro h
        exact Or.inr ⟨hall, (chainChild_iff_chain inst.compare (x :: rest)).mp h⟩
      · intro h
        rcases h with h | ⟨_, hchain⟩
        · exact absurd h (by simp)
        · exact (chainChild_iff_chain inst.compare (x :: rest)).mpr hchain
    · rw [if_pos hall]
      rw [List.all_eq_true] at hall
      constructor
      · intro h
        exact absurd h (by simp)
      · intro h
        rcases h with h | ⟨hv, _⟩
        · exact absurd h (by simp)
        · exact absurd hv hall

/-- C3: with a non-empty history whose last entry is `last`, a candidate not
classified as the `Child` of `last` makes `add_transaction` fail with the
lineage error (returning no modified token), while a candidate classified as
`Child` makes it succeed, appending exactly the candidate. -/
theorem add_transaction_lineage {T Hash : Type}
    (inst : Plasma.PlasmaCashTxn T Hash) (t : Plasma.Token T Hash)
    (txn last : T) (hlast : t.history.getLast? = some last) :
    (inst.compare txn last ≠ Plasma.TxnCmp.Child →
      Plasma.Token.add_transaction inst t txn =
        .error "Transaction is not a child of previous transaction.") ∧
    (inst.compare txn last = Plasma.TxnCmp.Child →
      Plasma.Token.add_transaction inst t txn =
        .ok { t with history := t.history ++ [txn] }) := by
  unfold Plasma.Token.add_transaction
  rw [hlast]
  constructor
  · intro h
    simp [h]
  · intro h
    simp [h]

/-- Witness for C3: over the test transactions, appending `3` after `1`
(Unrelated) fails, appending `2` after `1` (Child) succeeds. -/
theorem add_transaction_lineage_witness :
    Plasma.Token.add_transaction Test.instTest
        (⟨[true], .RootChain, [(1 : Fin 8)], []⟩ :
          Plasma.Token (Fin 8) (List Nat)) 3 =
      .error "Transaction is not a child of previous transaction." ∧
    Plasma.Token.add_transaction Test.instTest
        (⟨[true], .RootChain, [(1 : Fin 8)], []⟩ :
          Plasma.Token (Fin 8) (List Nat)) 2 =
      .ok ⟨[true], .RootChain, [1, 2], []⟩ := by
  constructor
  · exact (add_transaction_lineage Test.instTest
      ⟨[true], .RootChain, [1], []⟩ 3 1 (by decide)).1 (by decide)
  · exact (add_transaction_lineage Test.instTest
      ⟨[true], .RootChain, [1], []⟩ 2 1 (by decide)).2 (by decide)

/-- C9: on a token with empty history, `add_transaction` succeeds for every
candidate whatsoever — no check on the first entry. -/
theorem add_transaction_first_unchecked {T Hash : Type}
    (inst : Plasma.PlasmaCashTxn T Hash) (t : Plasma.Token T Hash)
    (txn : T) (h : t.history = []) :
    Plasma.Token.add_transaction inst t txn = .ok { t with history := [txn] } := by
  unfold Plasma.Token.add_transaction
  rw [h]
  rfl

/-- Witness for C9: transaction `7` is invalid and its token id differs from
the token uid, yet it is accepted as the first history entry. -/
theorem add_transaction_first_unchecked_witness :
    Test.instTest.valid 7 = false ∧
    Test.instTest.token_id 7 ≠
      (Plasma.Token.new [true] : Plasma.Token (Fin 8) (List Nat)).uid ∧
    Plasma.Token.add_transaction Test.instTest
        (Plasma.Token.new [true] : Plasma.Token (Fin 8) (List Nat)) 7 =
      .ok ⟨[true], .RootChain, [7], []⟩ := by
  refine ⟨by decide, by decide, ?_⟩
  exact add_transaction_first_unchecked Test.instTest (Plasma.Token.new [true]) 7 rfl

/-- C10: `add_transaction` either fails with the lineage error (leaving the
token untouched) or succeeds returning the token with the same `uid`,
`status` and `proofs`, and with `history` extended by exactly the candidate
at the end. -/
theorem add_transaction_frame {T Hash : Type}
    (inst : Plasma.PlasmaCashTxn T Hash) (t : Plasma.Token T Hash) (txn : T) :
    Plasma.Token.add_transaction inst t txn =
        .error "Transaction is not a child of previous transaction." ∨
      Plasma.Token.add_transaction inst t txn =
        .ok { t with history := t.history ++ [txn] } := by
  unfold Plasma.Token.add_transaction
  cases hlast : t.history.getLast? with
  | none => exact Or.inr rfl
  | some last =>
    by_cases h : inst.compare txn last = Plasma.TxnCmp.Child
    · simp [h]
    · simp [h]

/-- Tokens reachable from `Token::new` by any sequence of successful
`add_transaction` calls. -/
inductive Reached {T Hash : Type} (inst : Plasma.PlasmaCashTxn T Hash) :
    Plasma.Token T Hash → Prop
  | new (uid : List Bool) : Reached inst (Plasma.Token.new uid)
  | step (t t' : Plasma.Token T Hash) (txn : T) :
      Reached inst t →
      Plasma.Token.add_transaction inst t txn = .ok t' →
      Reached inst t'

/-- C6: every token reachable from `new(uid)` by successful `add_transaction`
calls has a history in which each consecutive pair `(prev, next)` satisfies
`compare(next, prev) == Child` — the sole mutator preserves invariant I3
from the empty initial history. -/
theorem reached_history_chain {T Hash : Type}
    (inst : Plasma.PlasmaCashTxn T Hash) (t : Plasma.Token T Hash)
    (h : Reached inst t) :
    List.Chain' (fun prev next => inst.compare next prev = Plasma.TxnCmp.Child)
      t.history := by
  induction h with
  | new uid => simp [Plasma.Token.new]
  | step t t' txn _ hadd ih =>
    unfold Plasma.Token.add_transaction at hadd
    split at hadd
    next last hlast =>
      split at hadd
      next hne => cases hadd
      next hne =>
        have hc : inst.compare txn last = Plasma.TxnCmp.Child := not_not.mp hne
        injection hadd with h
        subst h
        rw [List.chain'_append]
        refine ⟨ih, List.chain'_singleton txn, ?_⟩
        intro x hx y hy
        rw [hlast, Option.mem_some_iff] at hx
        rw [List.head?_cons, Option.mem_some_iff] at hy
        subst hx
        subst hy
        exact hc
    next hnone =>
      injection hadd with h
      subst h
      have hnil : t.history = [] := List.getLast?_eq_none_iff.mp hnone
      simp [hnil]

/-- Witness for C6: the token reached from `new([true])` by successfully
appending `2` then `3` has a Child-chained history. -/
theorem reached_history_chain_witness :
    List.Chain'
      (fun prev next => Test.instTest.compare next prev = Plasma.TxnCmp.Child)
      ((⟨[true], .RootChain, [2, 3], []⟩ :
        Plasma.Token (Fin 8) (List Nat)).history) := by
  exact reached_history_chain Test.instTest ⟨[true], .RootChain, [2, 3], []⟩
    (Reached.step ⟨[true], .RootChain, [2], []⟩ ⟨[true], .RootChain, [2, 3], []⟩ 3
      (Reached.step (Plasma.Token.new [true]) ⟨[true], .RootChain, [2], []⟩ 2
        (Reached.new [true]) rfl)
      rfl)

/-- Under the anti-symmetry contract, the legacy Parent-directed pair loop
and the current Child-directed pair loop agree on every list. -/
theorem chainParent_eq_chainChild {T : Type} (cmp : T → T → Plasma.TxnCmp)
    (hanti : ∀ A B : T, cmp A B = Plasma.TxnCmp.Parent ↔
      cmp B A = Plasma.TxnCmp.Child) :
    ∀ l : List T, Legacy.chainParent cmp l = Plasma.chainChild cmp l
  | [] => rfl
  | [_] => rfl
  | a :: b :: rest => by
    by_cases h : cmp a b = Plasma.TxnCmp.Parent
    · have h2 : cmp b a = Plasma.TxnCmp.Child := (hanti a b).mp h
      simp [Legacy.chainParent, Plasma.chainChild, h, h2,
        chainParent_eq_chainChild cmp hanti (b :: rest)]
    · have h2 : cmp b a ≠ Plasma.TxnCmp.Child := fun hc => h ((hanti a b).mpr hc)
      cases ha : cmp a b <;> cases hb : cmp b a <;>
        simp_all [Legacy.chainParent, Plasma.chainChild]

/-- C7: for any classifier satisfying the anti-symmetry contract
(`compare(A,B) == Parent` iff `compare(B,A) == Child`), on any history whose
entries are all individually valid, the legacy validator (Parent-directed,
from `src/lib.rs`) and the current validator (Child-directed, from
`src/token.rs`) return the same boolean. -/
theorem legacy_current_validators_agree {T Hash : Type}
    (inst : Plasma.PlasmaCashTxn T Hash)
    (hanti : ∀ A B : T, inst.compare A B = Plasma.TxnCmp.Parent ↔
      inst.compare B A = Plasma.TxnCmp.Child)
    (history : List T) (hvalid : ∀ t ∈ history, inst.valid t = true) :
    Legacy.is_history_valid inst.compare history =
      Plasma.is_history_valid inst history := by
  unfold Legacy.is_history_valid Plasma.is_history_valid
  rcases history with _ | ⟨x, rest⟩
  · rfl
  · have hlen : ¬ (x :: rest).length = 0 := by simp
    rw [if_neg hlen]
    have hall : (x :: rest).all inst.valid = true := List.all_eq_true.mpr hvalid
    simp only [List.isEmpty_cons, Bool.false_eq_true, if_false]
    rw [if_neg (not_not_intro hall)]
    exact chainParent_eq_chainChild inst.compare hanti (x :: rest)

/-- Witness for C7: the test classifier satisfies anti-symmetry, its
transactions `1, 2` are valid, and both validators agree on `[1, 2]`. -/
theorem legacy_current_validators_agree_witness :
    Legacy.is_history_valid Test.instTest.compare [(1 : Fin 8), 2] =
      Plasma.is_history_valid Test.instTest [1, 2] := by
  exact legacy_current_validators_agree Test.instTest (by decide) [1, 2]
    (by decide)

/-- C5 counterexample: the token with uid `[true]`, the single (valid)
history entry `2`, and one tracked witness that is empty — so that
`get_root` on it fails and it round-trips with no claimed root whatsoever —
still satisfies `is_valid() == true`, refuting the claim that `is_valid`
conjoins a proof round-trip check when proofs are tracked. -/
theorem is_valid_ignores_proofs_cex :
    Plasma.Token.is_valid Test.instTest
        (⟨[true], .RootChain, [2], [[]]⟩ : Plasma.Token (Fin 8) (List Nat)) =
      true ∧
    Merkle.get_root Test.instTest.asRef (Test.instTest.token_id 2)
        (Test.instTest.leaf_hash 2) [] Test.instTest.hash_fn =
      .error "Key must be the same size as the proof!" := by
  constructor
  · rfl
  · rfl

/-- C5 amended: `is_valid()` returns exactly `is_history_valid(history)`;
the `proofs` field is never consulted — replacing it with any other value
leaves the result unchanged. -/
theorem is_valid_eq_history_valid {T Hash : Type}
    (inst : Plasma.PlasmaCashTxn T Hash) (t : Plasma.Token T Hash)
    (other_proofs : List (List Hash)) :
    Plasma.Token.is_valid inst t = Plasma.is_history_valid inst t.history ∧
    Plasma.Token.is_valid inst { t with proofs := other_proofs } =
      Plasma.Token.is_valid inst t := by
  exact ⟨rfl, rfl⟩
